import Mathlib

/-!
# Destructors.cpp and polymorphism.cpp

A shallow embedding of the two demonstration programs of the repository.

* `Destructors`  models `src/Destructors/Destructors.cpp`: the classes `Array`
  and `SpecialArray`, the free function `createAndDestroyArray` and `main`.
  Statements run in a state monad over a `World` (the free store and a
  chronological trace of the observable steps: `new[]`, `delete[]`, element
  loads and stores, and lines written to `std::cout`).  Behaviour that C++
  leaves undefined, and the exception of `new[]`, end the run with a `Fault`.
* `Polymorphism` models `src/Polymorphism/polymorphism.cpp`: `Shape`,
  `Rectangle`, `Circle`, `printArea` and `main`, over a bit-level model of the
  IEEE 754 binary32 format that `float` denotes.  An abstract-class handle is a
  value of the sum of the concrete classes; a virtual call matches on it.

Modelling conventions.
* `int` values are mathematical integers; the one arithmetic operation of the
  programs on `int` that could overflow (`i * i`) is checked and faults outside
  the 32-bit range.
* `new int[n]` succeeds for every `n >= 0` (the free store is unbounded) and
  faults for `n < 0` (`std::bad_array_new_length`).  A fresh array holds
  indeterminate values, written `none`.
* Writes to `std::cout` never fail.
* `float` arithmetic rounds to nearest, ties to even, after every operation; a
  decimal literal with suffix `f` denotes the nearest `float`; every NaN result
  is one quiet NaN.  The text that `operator<<` produces for a `float` is not
  modelled: the output of `polymorphism.cpp` holds the `float` itself.
* The storage of the objects themselves is not part of the `World`; an object
  is the record of its data members together with its virtual-table pointer.
-/

namespace Destructors

/-- Ways in which a run can end abnormally. -/
inductive Fault where
  /-- `new int[n]` with negative `n`. -/
  | badArrayNewLength
  /-- Access through a pointer that no `new[]` returned. -/
  | wildPointer
  /-- Access to `elements[i]` with `i` outside `[0, size)`. -/
  | outOfBounds
  /-- Access to a block that `delete[]` already released. -/
  | useAfterFree
  /-- A second `delete[]` of one block. -/
  | doubleFree
  /-- Read of an element that was never written. -/
  | indeterminateRead
  /-- Signed overflow in `int` arithmetic. -/
  | intOverflow
  deriving DecidableEq, Repr

/-- Observable steps of a run, in the order in which they happen. -/
inductive Event where
  /-- `new int[n]` returned block `p`. -/
  | alloc (p : Nat) (n : Nat)
  /-- `delete[]` released block `p`. -/
  | free (p : Nat)
  /-- `elements[i] = v` on block `p`. -/
  | store (p : Nat) (i : Int) (v : Int)
  /-- A read of `elements[i]` on block `p`. -/
  | load (p : Nat) (i : Int)
  /-- One line written to `std::cout` (terminated by `std::endl`). -/
  | out (line : String)
  deriving DecidableEq, Repr

/-- One block of the free store. -/
inductive Block where
  /-- A block that is allocated; `none` is an indeterminate element. -/
  | live (cells : List (Option Int))
  /-- A block that was released. -/
  | freed
  deriving DecidableEq, Repr

/-- The free store (block `p` is `heap[p]`) and the trace so far. -/
structure World where
  heap : List Block
  trace : List Event
  deriving DecidableEq, Repr

/-- The world in which a program starts. -/
def World.initial : World := ⟨[], []⟩

/-- The lines written to `std::cout` so far. -/
def World.output (w : World) : List String :=
  w.trace.filterMap fun e => match e with
    | .out s => some s
    | _ => none

/-- The elements of block `p`, when it is allocated. -/
def World.cells (w : World) (p : Nat) : Option (List (Option Int)) :=
  match w.heap[p]? with
  | some (.live cells) => some cells
  | _ => none

/-- Statements: state passing over the world, ending in a value or a fault. -/
abbrev Exec (α : Type) : Type := StateT World (Except Fault) α

/-- Append one event to the trace. -/
def emit (e : Event) : Exec Unit :=
  modify fun w => { w with trace := w.trace ++ [e] }

/-- The statement `std::cout << line << std::endl`. -/
def cout (line : String) : Exec Unit := emit (.out line)

/-- The expression `new int[n]`. -/
def newIntArray (n : Int) : Exec Nat := do
  if n < 0 then throw Fault.badArrayNewLength
  let w ← get
  let p := w.heap.length
  set { w with heap := w.heap ++ [Block.live (List.replicate n.toNat none)] }
  emit (.alloc p n.toNat)
  pure p

/-- The statement `delete[] p`. -/
def deleteArray (p : Nat) : Exec Unit := do
  let w ← get
  match w.heap[p]? with
  | none => throw Fault.wildPointer
  | some .freed => throw Fault.doubleFree
  | some (.live _) =>
    set { w with heap := w.heap.set p .freed }
    emit (.free p)

/-- An lvalue of type `int&` designating `block[index]`. -/
structure IntRef where
  block : Nat
  index : Int
  deriving DecidableEq, Repr

/-- Assignment through an `int&`. -/
def IntRef.assign (r : IntRef) (v : Int) : Exec Unit := do
  let w ← get
  match w.heap[r.block]? with
  | none => throw Fault.wildPointer
  | some .freed => throw Fault.useAfterFree
  | some (.live cells) =>
    if r.index < 0 ∨ (cells.length : Int) ≤ r.index then throw Fault.outOfBounds
    set { w with heap := w.heap.set r.block (.live (cells.set r.index.toNat (some v))) }
    emit (.store r.block r.index v)

/-- Lvalue-to-rvalue conversion of an `int&`. -/
def IntRef.read (r : IntRef) : Exec Int := do
  let w ← get
  match w.heap[r.block]? with
  | none => throw Fault.wildPointer
  | some .freed => throw Fault.useAfterFree
  | some (.live cells) =>
    if r.index < 0 ∨ (cells.length : Int) ≤ r.index then throw Fault.outOfBounds
    match cells[r.index.toNat]? with
    | some (some v) =>
      emit (.load r.block r.index)
      pure v
    | _ => throw Fault.indeterminateRead

/-- The product of two `int` values; overflow is undefined behaviour. -/
def intMul (a b : Int) : Exec Int :=
  if -(2 ^ 31) ≤ a * b ∧ a * b < 2 ^ 31 then pure (a * b) else throw Fault.intOverflow

/-- The classes of the program, as values of the virtual-table pointer. -/
inductive Class where
  | Array
  | SpecialArray
  deriving DecidableEq, Repr

/-- The class `Array`: its virtual-table pointer and its two data members. -/
structure Array where
  vptr : Class
  size : Int
  elements : Nat
  deriving DecidableEq, Repr

/-- The class `SpecialArray : public Array`, which adds no member. -/
structure SpecialArray extends Array
  deriving DecidableEq, Repr

/-- The constructor `Array::Array(int size)`. -/
def Array.ctor (size : Int) : Exec Array := do
  let elements ← newIntArray size
  cout ("Constructed Array of size " ++ toString size)
  pure { vptr := .Array, size := size, elements := elements }

/-- The member `int Array::getSize() const`. -/
def Array.getSize (this : Array) : Int := this.size

/-- The member `int& Array::operator[](int i)`: `elements[i]`, unchecked. -/
def Array.index (this : Array) (i : Int) : IntRef := ⟨this.elements, i⟩

/-- The body and epilogue of `Array::~Array()`. -/
def Array.dtor (this : Array) : Exec Unit := do
  deleteArray this.elements
  cout "Array destroyed"

/-- The constructor `SpecialArray::SpecialArray(int size)`: the base
constructor first, then the body. -/
def SpecialArray.ctor (size : Int) : Exec SpecialArray := do
  let base ← Array.ctor size
  cout "SpecialArray constructor called"
  pure { toArray := { base with vptr := .SpecialArray } }

/-- The destructor `SpecialArray::~SpecialArray()`: the body first, then the
destructor of the base subobject. -/
def SpecialArray.dtor (this : SpecialArray) : Exec Unit := do
  cout "SpecialArray destructor called"
  Array.dtor { this.toArray with vptr := .Array }

/-- The conversion of a `SpecialArray*` to `Array*`. -/
def SpecialArray.upcast (this : SpecialArray) : Array := this.toArray

/-- The expression `delete arr` for `arr` of static type `Array*`: the
destructor is virtual, so the call goes through the virtual-table pointer. -/
def Array.delete (arr : Array) : Exec Unit :=
  match arr.vptr with
  | .Array => Array.dtor arr
  | .SpecialArray => SpecialArray.dtor ⟨arr⟩

/-- The object `a` owns an allocated block of exactly `a.size` elements. -/
def Array.Live (a : Array) (w : World) : Prop :=
  (w.cells a.elements).map (fun cells => (cells.length : Int)) = some a.size

instance (a : Array) (w : World) : Decidable (a.Live w) := by
  unfold Array.Live
  infer_instance

/-- A sequence of assignments `a[i] = v`, one for each pair of the list. -/
def Array.assignAll (a : Array) : List (Int × Int) → Exec Unit
  | [] => pure ()
  | (i, v) :: rest => do
    (a.index i).assign v
    a.assignAll rest

/-- The loop `for (int i = start; i < bound; i++) body(i)`, entered with `i`. -/
def forLoop (bound : Int) (body : Int → Exec Unit) (i : Int) : Exec Unit :=
  if i < bound then do
    body i
    forLoop bound body (i + 1)
  else pure ()
termination_by (bound - i).toNat
decreasing_by omega

/-- The function `createAndDestroyArray`. -/
def createAndDestroyArray : Exec Unit := do
  let myArray ← Array.ctor 10
  Array.dtor myArray

/-- The first loop of `main`: `(*arr)[i] = i * i`. -/
def mainFill (arr : Array) : Exec Unit :=
  forLoop arr.getSize (fun i => do (arr.index i).assign (← intMul i i)) 0

/-- The second loop of `main`: `std::cout << (*arr)[i] << std::endl`. -/
def mainPrint (arr : Array) : Exec Unit :=
  forLoop arr.getSize (fun i => do cout (toString (← (arr.index i).read))) 0

/-- The function `main`. -/
def main : Exec Int := do
  cout "MAIN STARTED"
  let arr : Array := (← SpecialArray.ctor 5).upcast
  mainFill arr
  mainPrint arr
  Array.delete arr
  if true then do
    let myArray ← Array.ctor 15
    Array.dtor myArray
  do
    let myArray ← Array.ctor 10
    Array.dtor myArray
  let specialArray ← SpecialArray.ctor 0
  if specialArray.getSize > 0 then
    cout ("specialArray size: " ++ toString specialArray.getSize)
  else
    cout "specialArray is empty"
  cout "MAIN ENDED"
  let result : Int := 0
  SpecialArray.dtor specialArray
  pure result

/-- The body `body(i); body(i + 1); ...` run `k` times from `i`. -/
def forCount (body : Int → Exec Unit) : Nat → Int → Exec Unit
  | 0, _ => pure ()
  | k + 1, i => do
    body i
    forCount body k (i + 1)

/-- The two states of the life cycle of an instance. -/
inductive Life where
  | Live
  | Released
  deriving DecidableEq, Repr

/-- One step of the life-cycle monitor.  An instance is identified by the
block it owns.  `new[]` makes a fresh instance `Live`; `delete[]` takes a
`Live` instance to `Released`; an element access needs a `Live` instance.
Any other step is rejected with `none`. -/
def lifeStep (m : List (Nat × Life)) : Event → Option (List (Nat × Life))
  | .alloc p _ => if m.lookup p = none then some (m ++ [(p, .Live)]) else none
  | .free p =>
    if m.lookup p = some .Live then
      some (m.map fun x => if x.1 = p then (p, .Released) else x)
    else none
  | .store p _ _ => if m.lookup p = some .Live then some m else none
  | .load p _ => if m.lookup p = some .Live then some m else none
  | .out _ => some m

/-- The life-cycle monitor run over a trace. -/
def lifeRun : List (Nat × Life) → List Event → Option (List (Nat × Life))
  | m, [] => some m
  | m, e :: t => (lifeStep m e).bind fun m1 => lifeRun m1 t

/-- The notification lines of a trace, each with the instance it belongs to:
the line that directly follows a `new[]` or a `delete[]`. -/
def notifications : List Event → List (Nat × String)
  | .alloc p _ :: .out s :: rest => (p, s) :: notifications rest
  | .free p :: .out s :: rest => (p, s) :: notifications rest
  | _ :: rest => notifications rest
  | [] => []

/-- The element accesses of a trace that go to block `p`. -/
def accessesOf (p : Nat) (t : List Event) : List Event :=
  t.filter fun e => match e with
    | .store q _ _ => q = p
    | .load q _ => q = p
    | _ => false

end Destructors

namespace Polymorphism

/-- A `float`: the sign bit, biased exponent and fraction field of an IEEE 754
binary32 datum. -/
structure F32 where
  sign : Bool
  expo : Nat
  frac : Nat
  deriving DecidableEq, Repr

namespace F32

/-- The fields are in range: 8 bits of exponent, 23 bits of fraction. -/
def WF (x : F32) : Prop := x.expo < 256 ∧ x.frac < 2 ^ 23

instance (x : F32) : Decidable x.WF := by unfold WF; infer_instance

/-- Not-a-number. -/
def isNaN (x : F32) : Bool := x.expo == 255 && x.frac != 0

/-- An infinity. -/
def isInf (x : F32) : Bool := x.expo == 255 && x.frac == 0

/-- Positive or negative zero. -/
def isZero (x : F32) : Bool := x.expo == 0 && x.frac == 0

/-- Neither an infinity nor a NaN. -/
def isFinite (x : F32) : Bool := decide (x.expo < 255)

/-- The quiet NaN that invalid operations return. -/
def nan : F32 := ⟨false, 255, 2 ^ 22⟩

/-- The significand of a finite `x`: the fraction, with the hidden bit unless
`x` is subnormal. -/
def mant (x : F32) : Nat :=
  if x.expo = 0 then x.frac else 2 ^ 23 + x.frac

/-- The binary exponent of the last place of a finite `x`. -/
def exp2 (x : F32) : Int :=
  if x.expo = 0 then -149 else (x.expo : Int) - 150

/-- The value of a finite `x`, namely `mant * 2 ^ exp2` with its sign. -/
def toRat (x : F32) : Option ℚ :=
  if x.expo < 255 then
    some ((if x.sign then -1 else 1) * (x.mant : ℚ) * 2 ^ x.exp2)
  else none

/-- The number `floor (log2 n)` for `0 < n`, by halving at most `fuel` times. -/
def log2Aux : Nat → Nat → Nat
  | 0, _ => 0
  | fuel + 1, n => if n < 2 then 0 else log2Aux fuel (n / 2) + 1

/-- The number `floor (log2 n)` for `0 < n`. -/
def log2 (n : Nat) : Nat := log2Aux n n

/-- The fraction `(n / d) * 2 ^ (-k)` as a pair of naturals. -/
def scale (n d : Nat) (k : Int) : Nat × Nat :=
  if 0 ≤ k then (n, d * 2 ^ k.toNat) else (n * 2 ^ (-k).toNat, d)

/-- The number `floor (log2 ((n / d) * 2 ^ k))`, for `0 < n` and `0 < d`. -/
def floorLog2 (n d : Nat) (k : Int) : Int :=
  let e0 : Int := (log2 n : Int) - (log2 d : Int) + k
  if (scale n d (e0 - k)).2 ≤ (scale n d (e0 - k)).1 then e0 else e0 - 1

/-- The binary exponent of the last place of a value whose leading bit has
exponent `e`: 24 significant bits, and never below the subnormal place. -/
def quantum (e : Int) : Int :=
  if e - 23 < -149 then -149 else e - 23

/-- The integer nearest to `a / b`, a tie going to the even one. -/
def nearestEven (a b : Nat) : Nat :=
  if b < 2 * (a % b) ∨ (2 * (a % b) = b ∧ a / b % 2 = 1) then a / b + 1 else a / b

/-- The datum of sign `s` and magnitude `m * 2 ^ q`, for `2 ^ 23 <= m < 2 ^ 24`;
an exponent above the range gives an infinity. -/
def packNormal (s : Bool) (m : Nat) (q : Int) : F32 :=
  if 255 ≤ q + 150 then ⟨s, 255, 0⟩ else ⟨s, (q + 150).toNat, m - 2 ^ 23⟩

/-- The datum of sign `s` and magnitude `m * 2 ^ q` for a rounded significand
`m <= 2 ^ 24`: subnormal below `2 ^ 23`, renormalised at `2 ^ 24`. -/
def pack (s : Bool) (m : Nat) (q : Int) : F32 :=
  if m < 2 ^ 23 then ⟨s, 0, m⟩
  else if m = 2 ^ 24 then packNormal s (2 ^ 23) (q + 1)
  else packNormal s m q

/-- The number `(n / d) * 2 ^ k` with sign `s`, for `0 < d`, rounded to the
nearest binary32 value, ties to the even significand. -/
def round (s : Bool) (n d : Nat) (k : Int) : F32 :=
  if n = 0 then ⟨s, 0, 0⟩ else
    let q : Int := quantum (floorLog2 n d k)
    pack s (nearestEven (scale n d (q - k)).1 (scale n d (q - k)).2) q

/-- The exact value `(n / d) * 2 ^ k` that `round` is given. -/
def ratVal (n d : Nat) (k : Int) : ℚ := (n : ℚ) / d * 2 ^ k

/-- The sign bit as a factor: `-1` when set. -/
def signFactor (s : Bool) : ℚ := if s then -1 else 1

/-- The conversion of an `int` to `float`. -/
def ofInt (n : Int) : F32 := round (decide (n < 0)) n.natAbs 1 0

/-- The value of the decimal literal `digits * 10 ^ (-places)` with suffix `f`. -/
def ofDecimal (digits places : Nat) : F32 := round false digits (10 ^ places) 0

/-- The product `x * y` of two `float` values. -/
def mul (x y : F32) : F32 :=
  if x.isNaN || y.isNaN then nan
  else if (x.isInf && y.isZero) || (x.isZero && y.isInf) then nan
  else if x.isInf || y.isInf then ⟨xor x.sign y.sign, 255, 0⟩
  else round (xor x.sign y.sign) (x.mant * y.mant) 1 (x.exp2 + y.exp2)

/-- The position of a non-NaN datum in the order of the extended reals; the two
zeros share position 0. -/
def key (x : F32) : Int :=
  if x.sign then -((x.expo * 2 ^ 23 + x.frac : Nat) : Int) else ((x.expo * 2 ^ 23 + x.frac : Nat) : Int)

/-- The comparison `x <= y`; false when an operand is a NaN. -/
def le (x y : F32) : Bool := !x.isNaN && !y.isNaN && decide (x.key ≤ y.key)

/-- The comparison `x < y`; false when an operand is a NaN. -/
def lt (x y : F32) : Bool := !x.isNaN && !y.isNaN && decide (x.key < y.key)

end F32

/-- The class `Rectangle`. -/
structure Rectangle where
  width : F32
  height : F32
  deriving DecidableEq, Repr

/-- The member `float Rectangle::getArea() const`. -/
def Rectangle.getArea (this : Rectangle) : F32 := F32.mul this.width this.height

/-- The class `Circle`. -/
structure Circle where
  radius : F32
  deriving DecidableEq, Repr

/-- The member `float Circle::getArea() const`. -/
def Circle.getArea (this : Circle) : F32 :=
  F32.mul (F32.mul (F32.ofDecimal 314159 5) this.radius) this.radius

/-- An object seen through the abstract class `Shape`: one of the two concrete
classes of the program, which is its dynamic type. -/
inductive Shape where
  | rectangle (r : Rectangle)
  | circle (c : Circle)
  deriving DecidableEq, Repr

/-- The pure virtual member `Shape::getArea`, resolved on the dynamic type. -/
def Shape.getArea : Shape → F32
  | .rectangle r => r.getArea
  | .circle c => c.getArea

/-- What is inserted into `std::cout`. -/
inductive Tok where
  | str (s : String)
  | flt (x : F32)
  | endl
  deriving DecidableEq, Repr

/-- The function `printArea(const Shape& shape)`, on the contents of `std::cout`. -/
def printArea (shape : Shape) (cout : List Tok) : List Tok :=
  cout ++ [.str "Area: ", .flt shape.getArea, .endl]

/-- The function `main`: the contents of `std::cout` at the end and the result. -/
def main (cout : List Tok) : List Tok × Int :=
  let r : Rectangle := ⟨F32.ofInt 2, F32.ofInt 6⟩
  let shape : Shape := .rectangle r
  let cout := cout ++ [.flt r.getArea, .endl]
  let cout := cout ++ [.flt shape.getArea, .endl]
  let c : Circle := ⟨F32.ofInt 5⟩
  let shape : Shape := .circle c
  let cout := printArea (.rectangle r) cout
  let cout := printArea (.circle c) cout
  let cout := printArea shape cout
  (cout, 0)

end Polymorphism

/-! ## Theorems about `Destructors.cpp` -/

namespace Destructors

theorem newIntArray_run (n : Int) (hn : 0 ≤ n) (w : World) :
    (newIntArray n).run w = .ok (w.heap.length,
      ⟨w.heap ++ [.live (List.replicate n.toNat none)], w.trace ++ [.alloc w.heap.length n.toNat]⟩) := by
  have h : ¬ n < 0 := by omega
  simp [newIntArray, h, emit]
  rfl

theorem Array_ctor_run (n : Int) (hn : 0 ≤ n) (w : World) :
    (Array.ctor n).run w = .ok (⟨.Array, n, w.heap.length⟩,
      ⟨w.heap ++ [.live (List.replicate n.toNat none)],
       w.trace ++ [.alloc w.heap.length n.toNat, .out ("Constructed Array of size " ++ toString n)]⟩) := by
  simp [Array.ctor, newIntArray_run n hn, cout, emit]

theorem SpecialArray_ctor_run (n : Int) (hn : 0 ≤ n) (w : World) :
    (SpecialArray.ctor n).run w = .ok (⟨⟨.SpecialArray, n, w.heap.length⟩⟩,
      ⟨w.heap ++ [.live (List.replicate n.toNat none)],
       w.trace ++ [.alloc w.heap.length n.toNat, .out ("Constructed Array of size " ++ toString n),
         .out "SpecialArray constructor called"]⟩) := by
  simp [SpecialArray.ctor, Array_ctor_run n hn, cout, emit]

theorem deleteArray_run (p : Nat) (w : World) (cells : List (Option Int))
    (h : w.heap[p]? = some (.live cells)) :
    (deleteArray p).run w = .ok ((), ⟨w.heap.set p .freed, w.trace ++ [.free p]⟩) := by
  simp [deleteArray, h, emit]
  rfl

theorem Array_dtor_run (a : Array) (w : World) (cells : List (Option Int))
    (h : w.heap[a.elements]? = some (.live cells)) :
    (Array.dtor a).run w = .ok ((), ⟨w.heap.set a.elements .freed,
      w.trace ++ [.free a.elements, .out "Array destroyed"]⟩) := by
  simp [Array.dtor, deleteArray_run _ w cells h, cout, emit]

theorem SpecialArray_dtor_run (a : SpecialArray) (w : World) (cells : List (Option Int))
    (h : w.heap[a.elements]? = some (.live cells)) :
    (SpecialArray.dtor a).run w = .ok ((), ⟨w.heap.set a.elements .freed,
      w.trace ++ [.out "SpecialArray destructor called", .free a.elements, .out "Array destroyed"]⟩) := by
  have h2 : (⟨w.heap, w.trace ++ [.out "SpecialArray destructor called"]⟩ : World).heap[a.elements]?
      = some (.live cells) := h
  simp [SpecialArray.dtor, cout, emit]
  rw [Array_dtor_run ⟨.Array, a.size, a.elements⟩ _ cells h2]
  simp

theorem assign_run (p : Nat) (i v : Int) (w : World) (cells : List (Option Int))
    (h : w.heap[p]? = some (.live cells)) (h0 : 0 ≤ i) (h1 : i < cells.length) :
    (IntRef.assign ⟨p, i⟩ v).run w = .ok ((),
      ⟨w.heap.set p (.live (cells.set i.toNat (some v))), w.trace ++ [.store p i v]⟩) := by
  have hc : ¬ (i < 0 ∨ (cells.length : Int) ≤ i) := by omega
  simp [IntRef.assign, h, hc, emit]
  rfl

theorem read_run (p : Nat) (i v : Int) (w : World) (cells : List (Option Int))
    (h : w.heap[p]? = some (.live cells)) (h0 : 0 ≤ i) (h1 : i < cells.length)
    (hv : cells[i.toNat]? = some (some v)) :
    (IntRef.read ⟨p, i⟩).run w = .ok (v, ⟨w.heap, w.trace ++ [.load p i]⟩) := by
  have hc : ¬ (i < 0 ∨ (cells.length : Int) ≤ i) := by omega
  simp [IntRef.read, h, hc, hv, emit]
  rfl

theorem live_iff (a : Array) (w : World) :
    a.Live w ↔ ∃ cells, w.heap[a.elements]? = some (.live cells) ∧
      (cells.length : Int) = a.size := by
  unfold Array.Live World.cells
  rcases w.heap[a.elements]? with _ | _ | _ <;> simp

theorem assignAll_run (a : Array) (writes : List (Int × Int)) :
    ∀ (w : World) (cells : List (Option Int)),
      w.heap[a.elements]? = some (.live cells) →
      (∀ x ∈ writes, 0 ≤ x.1 ∧ x.1 < cells.length) →
      ∃ w1 cells1, (a.assignAll writes).run w = .ok ((), w1) ∧
        w1.heap[a.elements]? = some (.live cells1) ∧ cells1.length = cells.length := by
  induction writes with
  | nil =>
    intro w cells h _
    exact ⟨w, cells, rfl, h, rfl⟩
  | cons x rest ih =>
    intro w cells h hin
    obtain ⟨i, v⟩ := x
    have hi := hin (i, v) (List.mem_cons_self _ _)
    have hlt : a.elements < w.heap.length := by
      by_contra hge
      rw [List.getElem?_eq_none (by omega)] at h
      cases h
    obtain ⟨w1, cells1, hrun, hlive, hlen⟩ :=
      ih ⟨w.heap.set a.elements (.live (cells.set i.toNat (some v))), w.trace ++ [.store a.elements i v]⟩
        (cells.set i.toNat (some v)) (by simp [hlt])
        (by intro y hy; simpa using hin y (List.mem_cons_of_mem _ hy))
    refine ⟨w1, cells1, ?_, hlive, by simpa using hlen⟩
    simp only [Array.assignAll, Array.index, StateT.run_bind]
    rw [assign_run a.elements i v w cells h hi.1 hi.2]
    exact hrun


theorem forLoop_eq_forCount (bound : Int) (body : Int → Exec Unit) (i : Int) :
    forLoop bound body i = forCount body (bound - i).toNat i := by
  generalize hk : (bound - i).toNat = k
  induction k generalizing i with
  | zero =>
    rw [forLoop, if_neg (by omega)]; rfl
  | succ k ih =>
    rw [forLoop, if_pos (by omega), ih (i + 1) (by omega)]; rfl

theorem main_run :
    main.run World.initial = .ok (0, ⟨[.freed, .freed, .freed, .freed],
      [.out "MAIN STARTED",
       .alloc 0 5, .out "Constructed Array of size 5", .out "SpecialArray constructor called",
       .store 0 0 0, .store 0 1 1, .store 0 2 4, .store 0 3 9, .store 0 4 16,
       .load 0 0, .out "0", .load 0 1, .out "1", .load 0 2, .out "4", .load 0 3, .out "9",
       .load 0 4, .out "16",
       .out "SpecialArray destructor called", .free 0, .out "Array destroyed",
       .alloc 1 15, .out "Constructed Array of size 15", .free 1, .out "Array destroyed",
       .alloc 2 10, .out "Constructed Array of size 10", .free 2, .out "Array destroyed",
       .alloc 3 0, .out "Constructed Array of size 0", .out "SpecialArray constructor called",
       .out "specialArray is empty", .out "MAIN ENDED",
       .out "SpecialArray destructor called", .free 3, .out "Array destroyed"]⟩) := by
  unfold main mainFill mainPrint
  simp only [forLoop_eq_forCount]
  rfl

theorem createAndDestroyArray_run :
    createAndDestroyArray.run World.initial = .ok ((), ⟨[.freed],
      [.alloc 0 10, .out "Constructed Array of size 10", .free 0, .out "Array destroyed"]⟩) := rfl

theorem ok_bind {α β : Type} (a : α) (f : α → Except Fault β) :
    (Except.ok a >>= f) = f a := rfl

theorem ok_map {α β : Type} (a : α) (f : α → β) :
    f <$> (Except.ok a : Except Fault α) = Except.ok (f a) := rfl

theorem assign_last (h : List Block) (t : List Event) (cells : List (Option Int)) (i v : Int)
    (h0 : 0 ≤ i) (h1 : i < cells.length) :
    (IntRef.assign ⟨h.length, i⟩ v).run ⟨h ++ [.live cells], t⟩ = .ok ((),
      ⟨h ++ [.live (cells.set i.toNat (some v))], t ++ [.store h.length i v]⟩) := by
  have key := assign_run h.length i v ⟨h ++ [.live cells], t⟩ cells (by simp) h0 h1
  simpa using key

theorem read_last (h : List Block) (t : List Event) (cells : List (Option Int)) (i v : Int)
    (h0 : 0 ≤ i) (h1 : i < cells.length) (hv : cells[i.toNat]? = some (some v)) :
    (IntRef.read ⟨h.length, i⟩).run ⟨h ++ [.live cells], t⟩ = .ok (v,
      ⟨h ++ [.live cells], t ++ [.load h.length i]⟩) :=
  read_run h.length i v ⟨h ++ [.live cells], t⟩ cells (by simp) h0 h1 hv

theorem intMul_run (a b : Int) (h : -(2 ^ 31) ≤ a * b ∧ a * b < 2 ^ 31) (w : World) :
    (intMul a b).run w = .ok (a * b, w) := by
  unfold intMul
  rw [if_pos h]
  rfl

theorem mainFill_run (h : List Block) (t : List Event) (v : Class) :
    (mainFill ⟨v, 5, h.length⟩).run ⟨h ++ [.live (List.replicate 5 none)], t⟩ = .ok ((),
      ⟨h ++ [.live [some 0, some 1, some 4, some 9, some 16]],
       t ++ [.store h.length 0 0, .store h.length 1 1, .store h.length 2 4,
         .store h.length 3 9, .store h.length 4 16]⟩) := by
  unfold mainFill
  rw [forLoop_eq_forCount]
  show (forCount _ 5 0).run _ = _
  simp [forCount, Array.index, intMul_run, assign_last, ok_bind]

theorem mainPrint_run (h : List Block) (t : List Event) (v : Class) :
    (mainPrint ⟨v, 5, h.length⟩).run ⟨h ++ [.live [some 0, some 1, some 4, some 9, some 16]], t⟩ =
      .ok ((), ⟨h ++ [.live [some 0, some 1, some 4, some 9, some 16]],
       t ++ [.load h.length 0, .out "0", .load h.length 1, .out "1", .load h.length 2, .out "4",
         .load h.length 3, .out "9", .load h.length 4, .out "16"]⟩) := by
  unfold mainPrint
  rw [forLoop_eq_forCount]
  show (forCount _ 5 0).run _ = _
  simp [forCount, Array.index, read_last, cout, emit, ok_bind, ok_map]
  exact ⟨rfl, rfl, rfl, rfl, rfl⟩

theorem live_lt (a : Array) (w : World) (cells : List (Option Int))
    (h : w.heap[a.elements]? = some (.live cells)) : a.elements < w.heap.length := by
  by_contra hge
  rw [List.getElem?_eq_none (by omega)] at h
  cases h

/-- C1: for every size `n >= 0`, an `Array` constructed with `n`, and likewise a
`SpecialArray` constructed with `n`, reports `getSize() == n`; every sequence of
in-range writes through `operator[]` runs without fault, after which `getSize()`
is still `n` and the object still owns a block of exactly `n` elements. -/
theorem getSize_eq_constructed_size (n : Int) (hn : 0 ≤ n) (w : World) :
    (∃ a w1, (Array.ctor n).run w = .ok (a, w1) ∧ a.getSize = n ∧ a.Live w1 ∧
      ∀ writes : List (Int × Int), (∀ x ∈ writes, 0 ≤ x.1 ∧ x.1 < a.getSize) →
        ∃ w2, (a.assignAll writes).run w1 = .ok ((), w2) ∧ a.getSize = n ∧ a.Live w2) ∧
    (∃ s w1, (SpecialArray.ctor n).run w = .ok (s, w1) ∧ s.getSize = n ∧ s.upcast.Live w1 ∧
      ∀ writes : List (Int × Int), (∀ x ∈ writes, 0 ≤ x.1 ∧ x.1 < s.getSize) →
        ∃ w2, (s.upcast.assignAll writes).run w1 = .ok ((), w2) ∧ s.getSize = n ∧
          s.upcast.Live w2) := by
  have hlen : ((List.replicate n.toNat (none : Option Int)).length : Int) = n := by
    simp [Int.toNat_of_nonneg hn]
  have main : ∀ (a : Array) (t : List Event), a.size = n → a.elements = w.heap.length →
      a.Live ⟨w.heap ++ [.live (List.replicate n.toNat none)], t⟩ ∧
      ∀ writes : List (Int × Int), (∀ x ∈ writes, 0 ≤ x.1 ∧ x.1 < a.getSize) →
        ∃ w2, (a.assignAll writes).run ⟨w.heap ++ [.live (List.replicate n.toNat none)], t⟩
          = .ok ((), w2) ∧ a.getSize = n ∧ a.Live w2 := by
    intro a t hs he
    have hget : (⟨w.heap ++ [.live (List.replicate n.toNat none)], t⟩ : World).heap[a.elements]?
        = some (.live (List.replicate n.toNat none)) := by simp [he]
    refine ⟨(live_iff _ _).mpr ⟨_, hget, by rw [hlen, hs]⟩, ?_⟩
    intro writes hw
    obtain ⟨w2, cells2, hrun, hlive, hl⟩ := assignAll_run a writes _ _ hget
      (by intro x hx; have := hw x hx; rw [hlen]; simpa [Array.getSize, hs] using this)
    exact ⟨w2, hrun, hs, (live_iff _ _).mpr ⟨cells2, hlive, by rw [hl, hlen, hs]⟩⟩
  constructor
  · obtain ⟨h1, h2⟩ := main ⟨.Array, n, w.heap.length⟩ _ rfl rfl
    exact ⟨_, _, Array_ctor_run n hn w, rfl, h1, h2⟩
  · obtain ⟨h1, h2⟩ := main ⟨.SpecialArray, n, w.heap.length⟩ _ rfl rfl
    exact ⟨_, _, SpecialArray_ctor_run n hn w, rfl, h1, h2⟩

theorem getSize_eq_constructed_size_witness :
    (0 : Int) ≤ 3 ∧ ∃ a w1, (Array.ctor 3).run World.initial = .ok (a, w1) ∧ a.getSize = 3 ∧
      ∃ w2, (a.assignAll [(0, 7), (2, 9), (0, 8)]).run w1 = .ok ((), w2) ∧ a.getSize = 3 ∧
        a.Live w2 := by
  obtain ⟨⟨a, w1, h1, h2, _, h4⟩, _⟩ :=
    getSize_eq_constructed_size 3 (by decide) World.initial
  refine ⟨by decide, a, w1, h1, h2, h4 _ ?_⟩
  rw [h2]
  decide

/-- C2: for every size `n >= 0`, constructing a `SpecialArray(n)` writes exactly
the lines "Constructed Array of size n" and then "SpecialArray constructor
called", and destroying that object writes exactly "SpecialArray destructor
called" and then "Array destroyed": the base class comes first in construction
and last in destruction. -/
theorem SpecialArray_notification_order (n : Int) (hn : 0 ≤ n) (w : World) :
    ∃ s w1 w2, (SpecialArray.ctor n).run w = .ok (s, w1) ∧
      w1.output = w.output ++
        ["Constructed Array of size " ++ toString n, "SpecialArray constructor called"] ∧
      (SpecialArray.dtor s).run w1 = .ok ((), w2) ∧
      w2.output = w1.output ++ ["SpecialArray destructor called", "Array destroyed"] := by
  refine ⟨_, _, _, SpecialArray_ctor_run n hn w, ?_,
    SpecialArray_dtor_run _ _ (List.replicate n.toNat none) (by simp), ?_⟩
  · simp [World.output]
  · simp [World.output]

theorem SpecialArray_notification_order_witness :
    (0 : Int) ≤ 5 ∧ ∃ s w1 w2, (SpecialArray.ctor 5).run World.initial = .ok (s, w1) ∧
      w1.output = World.initial.output ++
        ["Constructed Array of size " ++ toString (5 : Int), "SpecialArray constructor called"] ∧
      (SpecialArray.dtor s).run w1 = .ok ((), w2) ∧
      w2.output = w1.output ++ ["SpecialArray destructor called", "Array destroyed"] :=
  ⟨by decide, SpecialArray_notification_order 5 (by decide) World.initial⟩

/-- C3: destroying a `SpecialArray` through a handle of static type `Array*`
(`delete arr`) runs the derived destructor: it has the same effect as the
destructor call for a `SpecialArray` held under its own type, and writes
"SpecialArray destructor called" and then "Array destroyed".  In the run of
`main` the three steps of `delete arr` (block 0) and of the scope exit of
`specialArray` (block 3) carry the same two lines. -/
theorem delete_through_base_handle (n : Int) (hn : 0 ≤ n) (w : World) :
    (∃ s w1 w2, (SpecialArray.ctor n).run w = .ok (s, w1) ∧
      (Array.delete s.upcast).run w1 = .ok ((), w2) ∧
      (SpecialArray.dtor s).run w1 = .ok ((), w2) ∧
      w2.output = w1.output ++ ["SpecialArray destructor called", "Array destroyed"]) ∧
    (∃ w, main.run World.initial = .ok (0, w) ∧
      (w.trace.drop 19).take 3 =
        [.out "SpecialArray destructor called", .free 0, .out "Array destroyed"] ∧
      w.trace.drop 35 =
        [.out "SpecialArray destructor called", .free 3, .out "Array destroyed"]) := by
  have hrun := SpecialArray_dtor_run ⟨⟨.SpecialArray, n, w.heap.length⟩⟩
    ⟨w.heap ++ [.live (List.replicate n.toNat none)],
      w.trace ++ [.alloc w.heap.length n.toNat, .out ("Constructed Array of size " ++ toString n),
        .out "SpecialArray constructor called"]⟩
    (List.replicate n.toNat none) (by simp)
  refine ⟨⟨_, _, _, SpecialArray_ctor_run n hn w, hrun, hrun, ?_⟩, ⟨_, main_run, rfl, rfl⟩⟩
  simp [World.output]

theorem delete_through_base_handle_witness :
    (0 : Int) ≤ 5 ∧ ∃ s w1 w2, (SpecialArray.ctor 5).run World.initial = .ok (s, w1) ∧
      (Array.delete s.upcast).run w1 = .ok ((), w2) ∧
      (SpecialArray.dtor s).run w1 = .ok ((), w2) ∧
      w2.output = w1.output ++ ["SpecialArray destructor called", "Array destroyed"] :=
  ⟨by decide, (delete_through_base_handle 5 (by decide) World.initial).1⟩

theorem createAndDestroyArray_run_from (w : World) :
    createAndDestroyArray.run w = .ok ((), ⟨w.heap ++ [.freed],
      w.trace ++ [.alloc w.heap.length 10, .out "Constructed Array of size 10",
        .free w.heap.length, .out "Array destroyed"]⟩) := by
  have h2 := Array_dtor_run ⟨.Array, 10, w.heap.length⟩
    ⟨w.heap ++ [.live (List.replicate (10 : Int).toNat none)],
      w.trace ++ [.alloc w.heap.length (10 : Int).toNat,
        .out ("Constructed Array of size " ++ toString (10 : Int))]⟩
    (List.replicate (10 : Int).toNat none) (by simp)
  simp only [createAndDestroyArray, StateT.run_bind]
  rw [Array_ctor_run 10 (by decide) w]
  refine h2.trans ?_
  simp
  rfl

/-- C4: over the run of `main`, and of `createAndDestroyArray`, every `Array`
instance goes from `Live` to `Released` exactly once.  The life-cycle monitor
accepts the whole trace (each instance is created once, released only while
`Live`, and accessed only while `Live`) and ends with every instance `Released`;
each instance has exactly one construction line followed later by exactly one
"Array destroyed"; the output holds no further such line; and no block of the
free store is left allocated. -/
theorem every_instance_released_exactly_once :
    (∃ w, main.run World.initial = .ok (0, w) ∧
      lifeRun [] w.trace =
        some [(0, .Released), (1, .Released), (2, .Released), (3, .Released)] ∧
      notifications w.trace =
        [(0, "Constructed Array of size 5"), (0, "Array destroyed"),
         (1, "Constructed Array of size 15"), (1, "Array destroyed"),
         (2, "Constructed Array of size 10"), (2, "Array destroyed"),
         (3, "Constructed Array of size 0"), (3, "Array destroyed")] ∧
      (w.output.filter fun s => s.data.take 26 = "Constructed Array of size ".data).length = 4 ∧
      w.output.count "Array destroyed" = 4 ∧
      w.heap = [.freed, .freed, .freed, .freed]) ∧
    (∃ w, createAndDestroyArray.run World.initial = .ok ((), w) ∧
      lifeRun [] w.trace = some [(0, .Released)] ∧
      notifications w.trace = [(0, "Constructed Array of size 10"), (0, "Array destroyed")] ∧
      w.output = ["Constructed Array of size 10", "Array destroyed"] ∧
      w.heap = [.freed]) :=
  ⟨⟨_, main_run, rfl, rfl, rfl, rfl, rfl⟩, ⟨_, createAndDestroyArray_run, rfl, rfl, rfl, rfl⟩⟩

/-- C7: scoped instances of `main` are released at scope exit, before the code
after the scope runs.  The output of `main` is the listed sequence of lines; in
the trace the release of the `Array(15)` block precedes the construction of the
`Array(10)`, whose release precedes the construction of the `SpecialArray(0)`,
and that one is released after "MAIN ENDED", its two lines closing the output.
From every world, `createAndDestroyArray` writes exactly "Constructed Array of
size 10" and then "Array destroyed". -/
theorem scoped_instances_release_at_scope_exit :
    (∃ w, main.run World.initial = .ok (0, w) ∧
      w.output =
        ["MAIN STARTED",
         "Constructed Array of size 5", "SpecialArray constructor called",
         "0", "1", "4", "9", "16",
         "SpecialArray destructor called", "Array destroyed",
         "Constructed Array of size 15", "Array destroyed",
         "Constructed Array of size 10", "Array destroyed",
         "Constructed Array of size 0", "SpecialArray constructor called",
         "specialArray is empty", "MAIN ENDED",
         "SpecialArray destructor called", "Array destroyed"] ∧
      w.trace.drop 22 =
        [.alloc 1 15, .out "Constructed Array of size 15", .free 1, .out "Array destroyed",
         .alloc 2 10, .out "Constructed Array of size 10", .free 2, .out "Array destroyed",
         .alloc 3 0, .out "Constructed Array of size 0", .out "SpecialArray constructor called",
         .out "specialArray is empty", .out "MAIN ENDED",
         .out "SpecialArray destructor called", .free 3, .out "Array destroyed"]) ∧
    (∀ w : World, ∃ w1, createAndDestroyArray.run w = .ok ((), w1) ∧
      w1.output = w.output ++ ["Constructed Array of size 10", "Array destroyed"]) := by
  refine ⟨⟨_, main_run, rfl, rfl⟩, fun w => ⟨_, createAndDestroyArray_run_from w, ?_⟩⟩
  simp [World.output]

/-- C8: a buffer of size 0 is valid.  From every world `SpecialArray(0)` is
constructed without fault, reports `getSize() == 0` and owns an empty block, and
its destruction runs without fault and writes "SpecialArray destructor called"
and then "Array destroyed".  In `main` the object is block 3: the trace holds no
element access to it, the branch taken writes "specialArray is empty" (no line
"specialArray size: ..." is written), and its release closes the run. -/
theorem zero_size_buffer_is_valid :
    (∀ w : World, ∃ s w1 w2, (SpecialArray.ctor 0).run w = .ok (s, w1) ∧
      s.getSize = 0 ∧ w1.cells s.elements = some [] ∧
      (SpecialArray.dtor s).run w1 = .ok ((), w2) ∧
      w2.output = w1.output ++ ["SpecialArray destructor called", "Array destroyed"]) ∧
    (∃ w, main.run World.initial = .ok (0, w) ∧
      accessesOf 3 w.trace = [] ∧
      (w.output.filter fun s => s.data.take 19 = "specialArray size: ".data) = [] ∧
      w.trace.drop 30 =
        [.alloc 3 0, .out "Constructed Array of size 0", .out "SpecialArray constructor called",
         .out "specialArray is empty", .out "MAIN ENDED",
         .out "SpecialArray destructor called", .free 3, .out "Array destroyed"]) := by
  refine ⟨fun w => ?_, ⟨_, main_run, rfl, rfl, rfl⟩⟩
  have hrun := SpecialArray_dtor_run ⟨⟨.SpecialArray, 0, w.heap.length⟩⟩
    ⟨w.heap ++ [.live (List.replicate (0 : Int).toNat none)],
      w.trace ++ [.alloc w.heap.length (0 : Int).toNat,
        .out ("Constructed Array of size " ++ toString (0 : Int)),
        .out "SpecialArray constructor called"]⟩
    (List.replicate (0 : Int).toNat none) (by simp)
  refine ⟨_, _, _, SpecialArray_ctor_run 0 (by decide) w, rfl, ?_, hrun, ?_⟩
  · simp [World.cells]
  · simp [World.output]

/-- C10: indexed access is a store on a fixed-size sequence.  For a live `Array`
and an index `i` in `[0, size)`, writing `v` through `operator[](i)` succeeds,
a read of `operator[](i)` then yields `v`, and a read at any other in-range index
`j` gives what it gave before the write.  After the fill loop of `main` on the
size-5 array the elements are 0, 1, 4, 9, 16 (element `i` reads as `i * i`), and
the print loop writes the lines 0, 1, 4, 9, 16 in that order. -/
theorem indexed_access_is_a_store :
    (∀ (a : Array) (w : World) (i v : Int), a.Live w → 0 ≤ i → i < a.getSize →
      ∃ w1, ((a.index i).assign v).run w = .ok ((), w1) ∧ a.Live w1 ∧
        (∃ w2, (a.index i).read.run w1 = .ok (v, w2)) ∧
        ∀ j : Int, 0 ≤ j → j < a.getSize → j ≠ i →
          ((a.index j).read.run w1).map Prod.fst = ((a.index j).read.run w).map Prod.fst) ∧
    (∀ w : World, ∃ s w0 w1 w2, (SpecialArray.ctor 5).run w = .ok (s, w0) ∧
      (mainFill s.upcast).run w0 = .ok ((), w1) ∧
      w1.cells s.elements = some [some 0, some 1, some 4, some 9, some 16] ∧
      (∀ i : Int, 0 ≤ i → i < 5 → ∃ w3, (s.upcast.index i).read.run w1 = .ok (i * i, w3)) ∧
      (mainPrint s.upcast).run w1 = .ok ((), w2) ∧
      w2.output = w1.output ++ ["0", "1", "4", "9", "16"]) ∧
    (∃ w, main.run World.initial = .ok (0, w) ∧
      (w.output.drop 3).take 5 = ["0", "1", "4", "9", "16"]) := by
  refine ⟨?_, ?_, ⟨_, main_run, rfl⟩⟩
  · intro a w i v hl h0 h1
    obtain ⟨cells, hlive, hlen⟩ := (live_iff a w).mp hl
    have hi : i < cells.length := by rw [hlen]; exact h1
    have hp := live_lt a w cells hlive
    have hi2 : i.toNat < cells.length := by omega
    refine ⟨_, assign_run a.elements i v w cells hlive h0 hi, ?_, ?_, ?_⟩
    · exact (live_iff _ _).mpr ⟨cells.set i.toNat (some v), by simp [hp], by simpa using hlen⟩
    · exact ⟨_, read_run a.elements i v _ (cells.set i.toNat (some v)) (by simp [hp]) h0
        (by simpa using hi) (by simp [hi2])⟩
    · intro j hj0 hj1 hji
      have hj : ¬ (j < 0 ∨ (cells.length : Int) ≤ j) := by
        rw [hlen]; simp only [Array.getSize] at hj1; omega
      have hne : i.toNat ≠ j.toNat := by omega
      simp only [Array.index, IntRef.read]
      simp [hlive, hp, hj, hne]
      rcases cells[j.toNat]? with _ | _ | x <;> rfl
  · intro w
    refine ⟨_, _, _, _, SpecialArray_ctor_run 5 (by decide) w,
      mainFill_run w.heap _ .SpecialArray, ?_, ?_, mainPrint_run w.heap _ .SpecialArray, ?_⟩
    · simp [World.cells]
    · intro i h0 h1
      interval_cases i <;>
        exact ⟨_, read_last w.heap _ _ _ _ (by decide) (by decide) rfl⟩
    · simp [World.output]

theorem indexed_access_is_a_store_witness :
    ∃ w1, ((Array.index ⟨.Array, 3, 0⟩ 1).assign 7).run ⟨[.live [none, some 5, none]], []⟩
        = .ok ((), w1) ∧
      ∃ w2, (Array.index ⟨.Array, 3, 0⟩ 1).read.run w1 = .ok (7, w2) := by
  obtain ⟨w1, h1, _, h3, _⟩ := indexed_access_is_a_store.1 ⟨.Array, 3, 0⟩
    ⟨[.live [none, some 5, none]], []⟩ 1 7 (by decide) (by decide) (by decide)
  exact ⟨w1, h1, h3⟩

end Destructors

/-! ## Theorems about `polymorphism.cpp` -/

namespace Polymorphism
open F32

theorem F32.packNormal_sign (s : Bool) (m : Nat) (q : Int) : (packNormal s m q).sign = s := by
  unfold packNormal; split <;> rfl

theorem F32.packNormal_isNaN (s : Bool) (m : Nat) (q : Int) : (packNormal s m q).isNaN = false := by
  unfold packNormal
  split
  · rfl
  · have h : (q + 150).toNat ≠ 255 := by omega
    simp [isNaN, h]

theorem F32.pack_sign (s : Bool) (m : Nat) (q : Int) : (pack s m q).sign = s := by
  unfold pack
  split_ifs <;> first | rfl | exact packNormal_sign _ _ _

theorem F32.pack_isNaN (s : Bool) (m : Nat) (q : Int) : (pack s m q).isNaN = false := by
  unfold pack
  split_ifs <;> first | rfl | exact packNormal_isNaN _ _ _

theorem F32.round_sign (s : Bool) (n d : Nat) (k : Int) : (round s n d k).sign = s := by
  unfold round
  split_ifs <;> first | rfl | exact pack_sign _ _ _

theorem F32.round_isNaN (s : Bool) (n d : Nat) (k : Int) : (round s n d k).isNaN = false := by
  unfold round
  split_ifs <;> first | rfl | exact pack_isNaN _ _ _

theorem F32.mul_of_finite (x y : F32) (hx : x.isFinite = true) (hy : y.isFinite = true) :
    mul x y = round (xor x.sign y.sign) (x.mant * y.mant) 1 (x.exp2 + y.exp2) := by
  have hx1 : x.expo ≠ 255 := by simp [isFinite] at hx; omega
  have hy1 : y.expo ≠ 255 := by simp [isFinite] at hy; omega
  simp [mul, isNaN, isInf, hx1, hy1]

theorem F32.le_zero_of_sign (a : F32) (hn : a.isNaN = false) (hs : a.sign = true) :
    F32.le a (ofInt 0) = true := by
  have h0 : ofInt 0 = ⟨false, 0, 0⟩ := rfl
  rw [h0]
  simp only [isNaN, Bool.and_eq_false_imp, beq_iff_eq, bne_eq_false_iff_eq] at hn
  simp only [F32.le, isNaN, key, hs]
  simp
  refine ⟨?_, by omega⟩
  by_cases h : a.expo = 255
  · exact Or.inr (hn h)
  · exact Or.inl h

theorem F32.zero_le_of_sign (a : F32) (hn : a.isNaN = false) (hs : a.sign = false) :
    F32.le (ofInt 0) a = true := by
  have h0 : ofInt 0 = ⟨false, 0, 0⟩ := rfl
  rw [h0]
  simp only [isNaN, Bool.and_eq_false_imp, beq_iff_eq, bne_eq_false_iff_eq] at hn
  simp only [F32.le, isNaN, key, hs]
  simp
  refine ⟨?_, by omega⟩
  by_cases h : a.expo = 255
  · exact Or.inr (hn h)
  · exact Or.inl h

theorem F32.mant_of_isZero (x : F32) (h : x.isZero = true) : x.mant = 0 := by
  simp [isZero] at h
  simp [mant, h.1, h.2]

theorem F32.round_zero (s : Bool) (d : Nat) (k : Int) : round s 0 d k = ⟨s, 0, 0⟩ := by
  simp [round]

theorem F32.le_zero_of_isZero (a : F32) (h : a.isZero = true) : F32.le a (ofInt 0) = true := by
  have h0 : ofInt 0 = ⟨false, 0, 0⟩ := rfl
  rw [h0]
  simp [isZero] at h
  cases hs : a.sign <;> simp [F32.le, isNaN, key, h.1, h.2, hs]

theorem F32.zero_le_of_isZero (a : F32) (h : a.isZero = true) : F32.le (ofInt 0) a = true := by
  have h0 : ofInt 0 = ⟨false, 0, 0⟩ := rfl
  rw [h0]
  simp [isZero] at h
  cases hs : a.sign <;> simp [F32.le, isNaN, key, h.1, h.2, hs]

theorem F32.mul_sign (x y : F32) (h : (mul x y).isNaN = false) :
    (mul x y).sign = xor x.sign y.sign := by
  unfold mul at h ⊢
  split_ifs at h ⊢
  · exact absurd h (by decide)
  · exact absurd h (by decide)
  · rfl
  · exact round_sign _ _ _ _

theorem F32.mul_isNaN (x y : F32) (hx : x.isNaN = false) (hy : y.isNaN = false)
    (h1 : (x.isInf && y.isZero) = false) (h2 : (x.isZero && y.isInf) = false) :
    (mul x y).isNaN = false := by
  unfold mul
  simp only [hx, hy, h1, h2, Bool.or_self, Bool.false_eq_true, if_false]
  split_ifs
  · rfl
  · exact round_isNaN _ _ _ _

theorem F32.isNaN_of_isFinite (x : F32) (h : x.isFinite = true) : x.isNaN = false := by
  have h1 : x.expo ≠ 255 := by simp [isFinite] at h; omega
  simp [isNaN, h1]

theorem F32.isInf_of_isFinite (x : F32) (h : x.isFinite = true) : x.isInf = false := by
  have h1 : x.expo ≠ 255 := by simp [isFinite] at h; omega
  simp [isInf, h1]

theorem F32.mul_zero_left (x y : F32) (hx : x.isFinite = true) (hy : y.isFinite = true)
    (hz : x.isZero = true) : mul x y = ⟨xor x.sign y.sign, 0, 0⟩ := by
  rw [mul_of_finite x y hx hy, mant_of_isZero x hz, Nat.zero_mul, round_zero]

theorem F32.mul_zero_right (x y : F32) (hx : x.isFinite = true) (hy : y.isFinite = true)
    (hz : y.isZero = true) : mul x y = ⟨xor x.sign y.sign, 0, 0⟩ := by
  rw [mul_of_finite x y hx hy, mant_of_isZero y hz, Nat.mul_zero, round_zero]

namespace F32

theorem log2Aux_spec : ∀ (fuel n : Nat), 0 < n → n ≤ fuel →
    2 ^ log2Aux fuel n ≤ n ∧ n < 2 ^ (log2Aux fuel n + 1)
  | 0, n, h0, h1 => by omega
  | fuel + 1, n, h0, h1 => by
    unfold log2Aux
    split_ifs with h
    · constructor <;> simp <;> omega
    · have ih := log2Aux_spec fuel (n / 2) (by omega) (by omega)
      rw [pow_succ, pow_succ]
      constructor <;> omega

theorem log2_spec (n : Nat) (h : 0 < n) : 2 ^ log2 n ≤ n ∧ n < 2 ^ (log2 n + 1) :=
  log2Aux_spec n n h (le_refl n)

theorem scale_snd_pos (n d : Nat) (j : Int) (hd : 0 < d) : 0 < (scale n d j).2 := by
  unfold scale
  split_ifs
  · exact Nat.mul_pos hd (by positivity)
  · exact hd

theorem scale_ratio (n d : Nat) (j : Int) (hd : 0 < d) :
    ((scale n d j).1 : ℚ) / ((scale n d j).2 : ℚ) = (n : ℚ) / d / 2 ^ j := by
  have hd' : (d : ℚ) ≠ 0 := by exact_mod_cast hd.ne'
  unfold scale
  split_ifs with h
  · obtain ⟨t, rfl⟩ := Int.eq_ofNat_of_zero_le h
    simp only [Int.toNat_ofNat, Nat.cast_mul, Nat.cast_pow, Nat.cast_ofNat, zpow_natCast]
    rw [div_div]
  · obtain ⟨t, ht⟩ := Int.eq_ofNat_of_zero_le (show 0 ≤ -j by omega)
    have hj : j = -(t : Int) := by omega
    subst hj
    simp only [neg_neg, Int.toNat_ofNat, Nat.cast_mul, Nat.cast_pow, Nat.cast_ofNat, zpow_neg,
      zpow_natCast]
    field_simp

theorem nearestEven_err (a b : Nat) (hb : 0 < b) :
    |((nearestEven a b : Nat) : ℚ) - (a : ℚ) / b| ≤ 1 / 2 := by
  have hb' : (0 : ℚ) < b := by exact_mod_cast hb
  have hdm : (a : ℚ) = (b : ℚ) * ((a / b : Nat) : ℚ) + ((a % b : Nat) : ℚ) := by
    exact_mod_cast (Nat.div_add_mod a b).symm
  have hr : a % b < b := Nat.mod_lt a hb
  have hrq : ((a % b : Nat) : ℚ) < b := by exact_mod_cast hr
  have hr0 : (0 : ℚ) ≤ ((a % b : Nat) : ℚ) := by positivity
  have hquot : (a : ℚ) / b = ((a / b : Nat) : ℚ) + ((a % b : Nat) : ℚ) / b := by
    rw [hdm]; field_simp; ring
  unfold nearestEven
  rw [abs_le]
  split_ifs with h
  · have h2 : (b : ℚ) ≤ 2 * ((a % b : Nat) : ℚ) := by
      rcases h with h | ⟨h, -⟩
      · exact_mod_cast h.le
      · exact_mod_cast h.ge
    rw [hquot]
    push_cast
    have hx : ((a % b : Nat) : ℚ) / b < 1 := by rw [div_lt_one hb']; exact hrq
    have hy : (1 : ℚ) / 2 ≤ ((a % b : Nat) : ℚ) / b := by
      rw [le_div_iff₀ hb']; linarith
    constructor <;> linarith
  · have h2 : 2 * ((a % b : Nat) : ℚ) ≤ b := by
      have : ¬ b < 2 * (a % b) := fun hh => h (Or.inl hh)
      exact_mod_cast Nat.le_of_not_lt this
    rw [hquot]
    have hx : (0 : ℚ) ≤ ((a % b : Nat) : ℚ) / b := by positivity
    have hy : ((a % b : Nat) : ℚ) / b ≤ 1 / 2 := by
      rw [div_le_iff₀ hb']; linarith
    constructor <;> linarith

theorem nearestEven_ge (a b L : Nat) (hb : 0 < b) (h : L * b ≤ a) : L ≤ nearestEven a b := by
  have h1 : L ≤ a / b := (Nat.le_div_iff_mul_le hb).mpr h
  unfold nearestEven
  split_ifs <;> omega

theorem nearestEven_le (a b U : Nat) (hb : 0 < b) (h : a < U * b) : nearestEven a b ≤ U := by
  have h1 : a / b < U := (Nat.div_lt_iff_lt_mul hb).mpr h
  unfold nearestEven
  split_ifs <;> omega

theorem two_zpow_pos (j : Int) : (0 : ℚ) < 2 ^ j := zpow_pos (by norm_num) j

theorem scale_ratio_val (n d : Nat) (k q : Int) (hd : 0 < d) :
    ((scale n d (q - k)).1 : ℚ) / ((scale n d (q - k)).2 : ℚ) = ratVal n d k / 2 ^ q := by
  rw [scale_ratio n d (q - k) hd, ratVal, zpow_sub₀ (by norm_num : (2 : ℚ) ≠ 0)]
  have h1 := two_zpow_pos k
  have h2 := two_zpow_pos q
  field_simp

theorem log2_bounds (n : Nat) (h : 0 < n) :
    (2 : ℚ) ^ (log2 n : Int) ≤ n ∧ (n : ℚ) < 2 ^ ((log2 n : Int) + 1) := by
  obtain ⟨h1, h2⟩ := log2_spec n h
  constructor
  · rw [zpow_natCast]; exact_mod_cast h1
  · have : ((log2 n : Int) + 1) = ((log2 n + 1 : Nat) : Int) := by push_cast; rfl
    rw [this, zpow_natCast]; exact_mod_cast h2

theorem floorLog2_spec (n d : Nat) (k : Int) (hn : 0 < n) (hd : 0 < d) :
    (2 : ℚ) ^ floorLog2 n d k ≤ ratVal n d k ∧ ratVal n d k < 2 ^ (floorLog2 n d k + 1) := by
  have h2 : (2 : ℚ) ≠ 0 := by norm_num
  obtain ⟨hn1, hn2⟩ := log2_bounds n hn
  obtain ⟨hd1, hd2⟩ := log2_bounds d hd
  have hD : (0 : ℚ) < d := by exact_mod_cast hd
  have hK := two_zpow_pos k
  set ln : Int := (log2 n : Int) with hln
  set ld : Int := (log2 d : Int) with hld
  -- the value lies strictly between `2 ^ (e0 - 1)` and `2 ^ (e0 + 1)`
  have hup : ratVal n d k < 2 ^ (ln - ld + k + 1) := by
    have e : (2 : ℚ) ^ (ln - ld + k + 1) = 2 ^ (ln + 1) / 2 ^ ld * 2 ^ k := by
      rw [← zpow_sub₀ h2, ← zpow_add₀ h2]; congr 1; ring
    rw [e, ratVal]
    exact mul_lt_mul_of_pos_right
      (div_lt_div₀ hn2 hd1 (two_zpow_pos _).le (two_zpow_pos _)) hK
  have hlo : (2 : ℚ) ^ (ln - ld + k - 1) < ratVal n d k := by
    have e : (2 : ℚ) ^ (ln - ld + k - 1) = 2 ^ ln / 2 ^ (ld + 1) * 2 ^ k := by
      rw [← zpow_sub₀ h2, ← zpow_add₀ h2]; congr 1; ring
    rw [e, ratVal]
    exact mul_lt_mul_of_pos_right
      (div_lt_div₀' hn1 hd2 (by exact_mod_cast hn) hD) hK
  have hb := scale_snd_pos n d (ln - ld + k - k) hd
  have hb' : (0 : ℚ) < ((scale n d (ln - ld + k - k)).2 : ℚ) := by exact_mod_cast hb
  have hr := scale_ratio_val n d k (ln - ld + k) hd
  unfold floorLog2
  simp only [← hln, ← hld]
  split_ifs with h
  · refine ⟨?_, hup⟩
    have h1 : (1 : ℚ) ≤ ((scale n d (ln - ld + k - k)).1 : ℚ) / (scale n d (ln - ld + k - k)).2 := by
      rw [le_div_iff₀ hb', one_mul]; exact_mod_cast h
    rw [hr, le_div_iff₀ (two_zpow_pos _), one_mul] at h1
    exact h1
  · refine ⟨hlo.le, ?_⟩
    have h1 : ((scale n d (ln - ld + k - k)).1 : ℚ) / (scale n d (ln - ld + k - k)).2 < 1 := by
      rw [div_lt_iff₀ hb', one_mul]; exact_mod_cast Nat.lt_of_not_le h
    rw [hr, div_lt_iff₀ (two_zpow_pos _), one_mul] at h1
    simpa using h1

theorem toRat_eq (x : F32) (h : x.expo < 255) :
    x.toRat = some (signFactor x.sign * (x.mant : ℚ) * 2 ^ x.exp2) := by
  simp [toRat, h, signFactor]

theorem pack_spec (s : Bool) (m : Nat) (q : Int) (hq : -149 ≤ q) (hm : m ≤ 2 ^ 24)
    (hsub : m < 2 ^ 23 → q = -149) (hfin : (pack s m q).isFinite = true) :
    (pack s m q).WF ∧
    (pack s m q).toRat = some (signFactor s * (m : ℚ) * 2 ^ q) ∧
    q ≤ (pack s m q).exp2 := by
  have h2 : (2 : ℚ) ≠ 0 := by norm_num
  unfold pack at hfin ⊢
  split_ifs at hfin ⊢ with h1 h2'
  · -- subnormal
    have hq' := hsub h1
    subst hq'
    refine ⟨⟨by norm_num, h1⟩, ?_, ?_⟩
    · rw [toRat_eq _ (by norm_num)]
      simp [mant, exp2]
    · simp [exp2]
  · -- the significand rounded up to `2 ^ 24`
    unfold packNormal at hfin ⊢
    split_ifs at hfin ⊢ with h3
    · simp [isFinite] at hfin
    · have he : (q + 1 + 150).toNat ≠ 0 := by omega
      have hlt : (q + 1 + 150).toNat < 255 := by omega
      refine ⟨⟨by show (q + 1 + 150).toNat < 256; omega, by norm_num⟩, ?_, ?_⟩
      · rw [toRat_eq _ hlt]
        simp only [mant, exp2, he, if_false]
        have hc : (((q + 1 + 150).toNat : Int) - 150) = q + 1 := by omega
        rw [hc, h2', zpow_add₀ h2]
        push_cast
        ring_nf
      · simp only [exp2, he, if_false]
        omega
  · unfold packNormal at hfin ⊢
    split_ifs at hfin ⊢ with h3
    · simp [isFinite] at hfin
    · have he : (q + 150).toNat ≠ 0 := by omega
      have hlt : (q + 150).toNat < 255 := by omega
      have hm1 : 2 ^ 23 ≤ m := Nat.le_of_not_lt h1
      have hm2 : m < 2 ^ 24 := lt_of_le_of_ne hm h2'
      refine ⟨⟨by show (q + 150).toNat < 256; omega, by show m - 2 ^ 23 < 2 ^ 23; omega⟩, ?_, ?_⟩
      · rw [toRat_eq _ hlt]
        simp only [mant, exp2, he, if_false]
        have hc : (((q + 150).toNat : Int) - 150) = q := by omega
        have hmm : 2 ^ 23 + (m - 2 ^ 23) = m := by omega
        rw [hc, hmm]
      · simp only [exp2, he, if_false]
        omega

theorem quantum_ge (e : Int) : -149 ≤ quantum e ∧ e - 23 ≤ quantum e := by
  unfold quantum
  split_ifs <;> constructor <;> omega

theorem round_half_ulp (s : Bool) (n d : Nat) (k : Int) (hd : 0 < d)
    (hfin : (round s n d k).isFinite = true) :
    (round s n d k).WF ∧
    ∃ v : ℚ, (round s n d k).toRat = some v ∧
      |v - signFactor s * ratVal n d k| ≤ 2 ^ (round s n d k).exp2 / 2 := by
  have h2 : (2 : ℚ) ≠ 0 := by norm_num
  by_cases hn : n = 0
  · subst hn
    rw [round_zero]
    refine ⟨⟨by norm_num, by norm_num⟩, 0, ?_, ?_⟩
    · rw [toRat_eq _ (by norm_num)]; simp [mant]
    · simp [ratVal]; positivity
  · have hn' : 0 < n := Nat.pos_of_ne_zero hn
    obtain ⟨he1, he2⟩ := floorLog2_spec n d k hn' hd
    obtain ⟨hq1, hq2⟩ := quantum_ge (floorLog2 n d k)
    have hround : round s n d k = pack s
        (nearestEven (scale n d (quantum (floorLog2 n d k) - k)).1
          (scale n d (quantum (floorLog2 n d k) - k)).2) (quantum (floorLog2 n d k)) := by
      simp [round, hn]
    rw [hround] at hfin ⊢
    set e := floorLog2 n d k with he
    set q := quantum e with hq
    set a := (scale n d (q - k)).1 with ha
    set b := (scale n d (q - k)).2 with hb
    set V := ratVal n d k with hV
    have hbpos : 0 < b := scale_snd_pos n d (q - k) hd
    have hbq : (0 : ℚ) < b := by exact_mod_cast hbpos
    have hab : (a : ℚ) / b = V / 2 ^ q := scale_ratio_val n d k q hd
    have hQ := two_zpow_pos q
    -- the scaled value is below `2 ^ 24`
    have hup : a < 2 ^ 24 * b := by
      have h1 : (a : ℚ) / b < 2 ^ 24 := by
        rw [hab, div_lt_iff₀ hQ]
        calc V < 2 ^ (e + 1) := he2
          _ ≤ 2 ^ (q + 24) := zpow_le_zpow_right₀ (by norm_num) (by omega)
          _ = 2 ^ 24 * 2 ^ q := by rw [zpow_add₀ h2]; norm_num; ring
      rw [div_lt_iff₀ hbq] at h1
      exact_mod_cast h1
    have hmle : nearestEven a b ≤ 2 ^ 24 := nearestEven_le a b _ hbpos hup
    -- a significand below `2 ^ 23` occurs only at the subnormal place
    have hsub : nearestEven a b < 2 ^ 23 → q = -149 := by
      intro hlt
      by_contra hne
      have hqe : q = e - 23 := by
        simp only [hq, quantum] at hne ⊢
        split_ifs at hne ⊢ with h
        · exact absurd rfl hne
        · rfl
      have h1 : (2 : ℚ) ^ 23 ≤ (a : ℚ) / b := by
        rw [hab, le_div_iff₀ hQ]
        calc (2 : ℚ) ^ 23 * 2 ^ q = 2 ^ (q + 23) := by rw [zpow_add₀ h2]; norm_num; ring
          _ = 2 ^ e := by rw [hqe]; congr 1; ring
          _ ≤ V := he1
      rw [le_div_iff₀ hbq] at h1
      have h3 : 2 ^ 23 * b ≤ a := by exact_mod_cast h1
      have := nearestEven_ge a b _ hbpos h3
      omega
    obtain ⟨hwf, hval, hexp⟩ := pack_spec s (nearestEven a b) q hq1 hmle hsub hfin
    refine ⟨hwf, _, hval, ?_⟩
    have herr := nearestEven_err a b hbpos
    rw [hab] at herr
    have hs : |signFactor s| = 1 := by cases s <;> simp [signFactor]
    have e1 : signFactor s * (nearestEven a b : ℚ) * 2 ^ q - signFactor s * V
        = signFactor s * (((nearestEven a b : ℚ) - V / 2 ^ q) * 2 ^ q) := by
      field_simp
      ring
    rw [e1, abs_mul, hs, one_mul, abs_mul, abs_of_pos hQ]
    calc |(nearestEven a b : ℚ) - V / 2 ^ q| * 2 ^ q ≤ 1 / 2 * 2 ^ q :=
          mul_le_mul_of_nonneg_right herr hQ.le
      _ = 2 ^ q / 2 := by ring
      _ ≤ 2 ^ (pack s (nearestEven a b) q).exp2 / 2 := by
          apply div_le_div_of_nonneg_right _ (by norm_num)
          exact zpow_le_zpow_right₀ (by norm_num) hexp

theorem signFactor_xor (a b : Bool) : signFactor (xor a b) = signFactor a * signFactor b := by
  cases a <;> cases b <;> simp [signFactor]

theorem expo_lt_of_isFinite (x : F32) (h : x.isFinite = true) : x.expo < 255 := by
  simpa [isFinite] using h

theorem mul_half_ulp (x y : F32) (hx : x.isFinite = true) (hy : y.isFinite = true)
    (hr : (mul x y).isFinite = true) :
    (mul x y).WF ∧
    ∃ vx vy vr : ℚ, x.toRat = some vx ∧ y.toRat = some vy ∧ (mul x y).toRat = some vr ∧
      |vr - vx * vy| ≤ 2 ^ (mul x y).exp2 / 2 := by
  rw [mul_of_finite x y hx hy] at hr ⊢
  obtain ⟨hwf, v, hv, herr⟩ := round_half_ulp _ _ 1 _ Nat.one_pos hr
  refine ⟨hwf, _, _, v, toRat_eq x (expo_lt_of_isFinite x hx),
    toRat_eq y (expo_lt_of_isFinite y hy), hv, ?_⟩
  have e : signFactor (xor x.sign y.sign) * ratVal (x.mant * y.mant) 1 (x.exp2 + y.exp2)
      = signFactor x.sign * (x.mant : ℚ) * 2 ^ x.exp2 *
        (signFactor y.sign * (y.mant : ℚ) * 2 ^ y.exp2) := by
    rw [signFactor_xor, ratVal, zpow_add₀ (by norm_num : (2 : ℚ) ≠ 0)]
    push_cast
    ring
  rw [← e]
  exact herr

end F32

theorem rectangle_2_6_area : Rectangle.getArea ⟨ofInt 2, ofInt 6⟩ = ⟨false, 130, 4194304⟩ := rfl

theorem circle_5_area : Circle.getArea ⟨ofInt 5⟩ = ⟨false, 133, 1905754⟩ := rfl

/-- C5: `Rectangle::getArea` returns the `float` product `width * height` and
`Circle::getArea` returns `3.14159f * radius * radius`, for every argument; when
the operands and the result are finite, each `float` product is within half a
unit in the last place of the exact product.  `Rectangle(2, 6).getArea()` is
exactly 12.  In exact arithmetic `3.14159 * 5 * 5` is 78.53975;
`Circle(5).getArea()` is the `float` nearest to 78.53975, namely
5147181 / 65536, which is within one millionth of it. -/
theorem getArea_returns_products :
    (∀ w h : F32, Rectangle.getArea ⟨w, h⟩ = F32.mul w h) ∧
    (∀ r : F32, Circle.getArea ⟨r⟩ = F32.mul (F32.mul (ofDecimal 314159 5) r) r) ∧
    (∀ w h : F32, w.isFinite = true → h.isFinite = true →
      (Rectangle.getArea ⟨w, h⟩).isFinite = true →
      ∃ vw vh va : ℚ, w.toRat = some vw ∧ h.toRat = some vh ∧
        (Rectangle.getArea ⟨w, h⟩).toRat = some va ∧
        |va - vw * vh| ≤ 2 ^ (Rectangle.getArea ⟨w, h⟩).exp2 / 2) ∧
    (∀ r : F32, r.isFinite = true → (F32.mul (ofDecimal 314159 5) r).isFinite = true →
      (Circle.getArea ⟨r⟩).isFinite = true →
      ∃ vp vr vt va : ℚ, (ofDecimal 314159 5).toRat = some vp ∧ r.toRat = some vr ∧
        (F32.mul (ofDecimal 314159 5) r).toRat = some vt ∧
        (Circle.getArea ⟨r⟩).toRat = some va ∧
        |vp - 314159 / 100000| ≤ 2 ^ (ofDecimal 314159 5).exp2 / 2 ∧
        |vt - vp * vr| ≤ 2 ^ (F32.mul (ofDecimal 314159 5) r).exp2 / 2 ∧
        |va - vt * vr| ≤ 2 ^ (Circle.getArea ⟨r⟩).exp2 / 2) ∧
    ofDecimal 314159 5 = ⟨false, 128, 0x490FD0⟩ ∧
    Rectangle.getArea ⟨ofInt 2, ofInt 6⟩ = ofInt 12 ∧
    (Rectangle.getArea ⟨ofInt 2, ofInt 6⟩).toRat = some 12 ∧
    (314159 / 100000 * 5 * 5 : ℚ) = 7853975 / 100000 ∧
    Circle.getArea ⟨ofInt 5⟩ = ofDecimal 7853975 5 ∧
    (Circle.getArea ⟨ofInt 5⟩).toRat = some (5147181 / 65536) ∧
    |(5147181 / 65536 : ℚ) - 7853975 / 100000| < 1 / 1000000 := by
  have hpi : (ofDecimal 314159 5).isFinite = true := rfl
  refine ⟨fun _ _ => rfl, fun _ => rfl, ?_, ?_, rfl, rfl, ?_, by norm_num, rfl, ?_, ?_⟩
  · intro w h hw hh hfin
    exact (mul_half_ulp w h hw hh hfin).2
  · intro r hr ht hfin
    obtain ⟨-, vp, hvp, hep⟩ := round_half_ulp false 314159 (10 ^ 5) 0 (by norm_num) hpi
    obtain ⟨-, vp1, vr, vt, h1, h2, h3, h4⟩ := mul_half_ulp _ r hpi hr ht
    obtain ⟨-, vt2, vr2, va, h5, h6, h7, h8⟩ := mul_half_ulp _ r ht hr hfin
    have e1 : vp1 = vp := Option.some.inj (h1.symm.trans hvp)
    have e2 : vt2 = vt := Option.some.inj (h5.symm.trans h3)
    have e3 : vr2 = vr := Option.some.inj (h6.symm.trans h2)
    subst e1 e2 e3
    refine ⟨_, _, _, _, hvp, h2, h3, h7, ?_, h4, h8⟩
    have e : signFactor false * ratVal 314159 (10 ^ 5) 0 = 314159 / 100000 := by
      simp [signFactor, ratVal]
    rw [e] at hep
    exact hep
  · rw [rectangle_2_6_area]
    simp only [toRat, mant, exp2]
    norm_num
  · rw [circle_5_area]
    simp only [toRat, mant, exp2]
    norm_num
  · rw [abs_lt]
    constructor <;> norm_num

theorem getArea_returns_products_witness :
    ∃ vw vh va : ℚ, (ofInt 3).toRat = some vw ∧ (ofInt (-7)).toRat = some vh ∧
      (Rectangle.getArea ⟨ofInt 3, ofInt (-7)⟩).toRat = some va ∧
      |va - vw * vh| ≤ 2 ^ (Rectangle.getArea ⟨ofInt 3, ofInt (-7)⟩).exp2 / 2 :=
  getArea_returns_products.2.2.1 (ofInt 3) (ofInt (-7)) rfl rfl rfl

/-- C6: `printArea` writes the area of the dynamic type of the object behind its
`Shape` handle: `width * height` for a `Rectangle`, `3.14159f * radius * radius`
for a `Circle`.  Called with a handle to `Rectangle(2, 6)` and then with the
handle set to `Circle(5)` it writes 12 and then the `float` nearest to 78.53975.
In `main` the direct call `r.getArea()` and the call `shape->getArea()` through
the handle write the same 12, and `printArea(c)` and `printArea(*shape)` write
the same area of the circle. -/
theorem printArea_dispatches_on_dynamic_type :
    (∀ (r : Rectangle) (cout : List Tok), printArea (.rectangle r) cout =
      cout ++ [.str "Area: ", .flt (F32.mul r.width r.height), .endl]) ∧
    (∀ (c : Circle) (cout : List Tok), printArea (.circle c) cout =
      cout ++ [.str "Area: ", .flt (F32.mul (F32.mul (ofDecimal 314159 5) c.radius) c.radius),
        .endl]) ∧
    printArea (.circle ⟨ofInt 5⟩) (printArea (.rectangle ⟨ofInt 2, ofInt 6⟩) []) =
      [.str "Area: ", .flt (ofInt 12), .endl,
       .str "Area: ", .flt (ofDecimal 7853975 5), .endl] ∧
    (ofInt 12).toRat = some 12 ∧
    (ofDecimal 7853975 5).toRat = some (5147181 / 65536) ∧
    |(5147181 / 65536 : ℚ) - 7853975 / 100000| < 1 / 1000000 ∧
    main [] =
      ([.flt (ofInt 12), .endl, .flt (ofInt 12), .endl,
        .str "Area: ", .flt (ofInt 12), .endl,
        .str "Area: ", .flt (ofDecimal 7853975 5), .endl,
        .str "Area: ", .flt (ofDecimal 7853975 5), .endl], 0) := by
  have h12 : ofInt 12 = ⟨false, 130, 4194304⟩ := rfl
  have hc : ofDecimal 7853975 5 = ⟨false, 133, 1905754⟩ := rfl
  refine ⟨fun _ _ => rfl, fun _ _ => rfl, rfl, ?_, ?_, ?_, rfl⟩
  · rw [h12]
    simp only [toRat, mant, exp2]
    norm_num
  · rw [hc]
    simp only [toRat, mant, exp2]
    norm_num
  · rw [abs_lt]
    constructor <;> norm_num

/-- C9, as the claim states it, fails: `Rectangle(-1, -1)` has a negative width
and its area is 1, which is not `<= 0`; `Circle(-1)` has a negative radius and
its area is `3.14159f`, which is not `<= 0`.  With an infinite dimension the
area can be a NaN, which is not `<= 0` either. -/
theorem nonpositive_dimension_counterexample :
    F32.lt (ofInt (-1)) (ofInt 0) = true ∧
    Rectangle.getArea ⟨ofInt (-1), ofInt (-1)⟩ = ofInt 1 ∧
    F32.le (Rectangle.getArea ⟨ofInt (-1), ofInt (-1)⟩) (ofInt 0) = false ∧
    Circle.getArea ⟨ofInt (-1)⟩ = ofDecimal 314159 5 ∧
    F32.le (Circle.getArea ⟨ofInt (-1)⟩) (ofInt 0) = false ∧
    F32.le (Rectangle.getArea ⟨⟨true, 255, 0⟩, ofInt 0⟩) (ofInt 0) = false ∧
    ¬ (∀ w h : F32, w.WF → h.WF → (F32.le w (ofInt 0) = true ∨ F32.le h (ofInt 0) = true) →
        F32.le (Rectangle.getArea ⟨w, h⟩) (ofInt 0) = true) ∧
    ¬ (∀ r : F32, r.WF → F32.le r (ofInt 0) = true →
        F32.le (Circle.getArea ⟨r⟩) (ofInt 0) = true) := by
  refine ⟨rfl, rfl, rfl, rfl, rfl, rfl, fun hrect => ?_, fun hcirc => ?_⟩
  · have h := hrect (ofInt (-1)) (ofInt (-1)) (by decide) (by decide) (Or.inl (by decide))
    revert h
    decide
  · have h := hcirc (ofInt (-1)) (by decide) (by decide)
    revert h
    decide

/-- C9, amended: dimensions of any sign are accepted, and for finite dimensions
a `Rectangle` has `getArea() <= 0` when its width or its height is zero or when
exactly one of the two has the sign bit set; a `Circle` has `getArea() <= 0`
when its radius is zero, and `getArea() >= 0` for every finite radius, negative
ones included. -/
theorem nonpositive_area_of_zero_or_opposite_signs :
    (∀ w h : F32, w.isFinite = true → h.isFinite = true →
      (w.isZero = true ∨ h.isZero = true ∨ w.sign ≠ h.sign) →
      F32.le (Rectangle.getArea ⟨w, h⟩) (ofInt 0) = true) ∧
    (∀ r : F32, r.isFinite = true → r.isZero = true →
      F32.le (Circle.getArea ⟨r⟩) (ofInt 0) = true) ∧
    (∀ r : F32, r.isFinite = true → F32.le (ofInt 0) (Circle.getArea ⟨r⟩) = true) := by
  have hpi : (ofDecimal 314159 5).isFinite = true := rfl
  have hpis : (ofDecimal 314159 5).sign = false := rfl
  refine ⟨?_, ?_, ?_⟩
  · intro w h hw hh hcase
    show F32.le (mul w h) (ofInt 0) = true
    rcases hcase with hz | hz | hs
    · rw [mul_zero_left w h hw hh hz]
      exact le_zero_of_isZero _ rfl
    · rw [mul_zero_right w h hw hh hz]
      exact le_zero_of_isZero _ rfl
    · rw [mul_of_finite w h hw hh]
      refine le_zero_of_sign _ (round_isNaN _ _ _ _) ?_
      rw [round_sign]
      revert hs
      cases w.sign <;> cases h.sign <;> simp
  · intro r hr hz
    show F32.le (mul (mul (ofDecimal 314159 5) r) r) (ofInt 0) = true
    rw [mul_zero_right _ r hpi hr hz,
      mul_zero_left ⟨xor (ofDecimal 314159 5).sign r.sign, 0, 0⟩ r rfl hr rfl]
    exact le_zero_of_isZero _ rfl
  · intro r hr
    show F32.le (ofInt 0) (mul (mul (ofDecimal 314159 5) r) r) = true
    by_cases hz : r.isZero = true
    · rw [mul_zero_right _ r hpi hr hz,
      mul_zero_left ⟨xor (ofDecimal 314159 5).sign r.sign, 0, 0⟩ r rfl hr rfl]
      exact zero_le_of_isZero _ rfl
    · have hz2 : r.isZero = false := by simpa using hz
      have ht : (mul (ofDecimal 314159 5) r).isNaN = false := by
        rw [mul_of_finite _ r hpi hr]
        exact round_isNaN _ _ _ _
      have hts : (mul (ofDecimal 314159 5) r).sign = r.sign := by
        rw [mul_sign _ _ ht, hpis]
        simp
      have hn : (mul (mul (ofDecimal 314159 5) r) r).isNaN = false :=
        mul_isNaN _ _ ht (isNaN_of_isFinite r hr) (by simp [hz2])
          (by simp [isInf_of_isFinite r hr])
      refine zero_le_of_sign _ hn ?_
      rw [mul_sign _ _ hn, hts]
      simp

theorem nonpositive_area_of_zero_or_opposite_signs_witness :
    F32.le (Rectangle.getArea ⟨ofInt (-2), ofInt 3⟩) (ofInt 0) = true ∧
    F32.le (Circle.getArea ⟨ofInt 0⟩) (ofInt 0) = true ∧
    F32.le (ofInt 0) (Circle.getArea ⟨ofInt (-1)⟩) = true :=
  ⟨nonpositive_area_of_zero_or_opposite_signs.1 (ofInt (-2)) (ofInt 3) rfl rfl
      (Or.inr (Or.inr (by decide))),
    nonpositive_area_of_zero_or_opposite_signs.2.1 (ofInt 0) rfl rfl,
    nonpositive_area_of_zero_or_opposite_signs.2.2 (ofInt (-1)) rfl⟩

end Polymorphism
